import Mathlib

/-!
# Verification development for the `docxer` repository

Shallow embedding of the three Python modules the claims are about:

* `docxer/generator.py`  — prompt-template rendering (`render_instructions`);
* `docxer/converter.py`  — the Markdown-AST → document-model emitter (`DocxEmitter`);
* `docxer/orchestrator.py` — batch generation (`generate_documents`,
  `_sanitize_filename`, `_extract_title`, duplicate-avoidance naming).

Python strings are modelled as Lean `String`/`List Char` (ASCII behaviour for
whitespace and case conversion; the sources only rely on ASCII behaviour),
Python integers as `Nat`, Python dict/`None` optionality as `Option`, and the
mutable `python-docx` document as an explicit list of blocks threaded through
the emitter's state.
-/

namespace Docxer

/-! ## Decimal rendering of naturals

Mirrors Python's `str(n)` / `f"{n}"` for non-negative integers (used by
`generator.py` line 74 `str(context.document_number)` and by
`orchestrator.py` line 146 `f"{base_name}-{counter}.docx"`).
The fuel argument makes the recursion structural; fuel `n+1` always suffices
because the value shrinks by a factor of 10 each step. -/

def digitChar (d : Nat) : Char :=
  match d with
  | 0 => '0' | 1 => '1' | 2 => '2' | 3 => '3' | 4 => '4'
  | 5 => '5' | 6 => '6' | 7 => '7' | 8 => '8' | _ => '9'

def toDecAux : Nat → Nat → List Char
  | 0, _ => []
  | fuel + 1, n => if n < 10 then [digitChar n] else toDecAux fuel (n / 10) ++ [digitChar (n % 10)]

def toDec (n : Nat) : List Char := toDecAux (n + 1) n

def reprDec (n : Nat) : String := ⟨toDec n⟩

/-- Numeric value of a digit character; left inverse of `digitChar` below 10. -/
def digitVal (c : Char) : Nat := c.toNat - 48

def decValAux (acc : Nat) : List Char → Nat
  | [] => acc
  | c :: cs => decValAux (10 * acc + digitVal c) cs

def decVal (l : List Char) : Nat := decValAux 0 l

theorem digitVal_digitChar {d : Nat} (h : d < 10) : digitVal (digitChar d) = d := by
  interval_cases d <;> decide

theorem decValAux_append (acc : Nat) (l : List Char) (c : Char) :
    decValAux acc (l ++ [c]) = 10 * decValAux acc l + digitVal c := by
  induction l generalizing acc with
  | nil => rfl
  | cons x xs ih =>
    show decValAux (10 * acc + digitVal x) (xs ++ [c]) =
      10 * decValAux (10 * acc + digitVal x) xs + digitVal c
    exact ih _

theorem decVal_toDecAux {fuel n : Nat} (h : n < fuel) : decVal (toDecAux fuel n) = n := by
  induction fuel generalizing n with
  | zero => omega
  | succ fuel ih =>
    have hstep : toDecAux (fuel + 1) n = if n < 10 then [digitChar n]
        else toDecAux fuel (n / 10) ++ [digitChar (n % 10)] := rfl
    by_cases h10 : n < 10
    · rw [hstep, if_pos h10]
      show 10 * 0 + digitVal (digitChar n) = n
      rw [digitVal_digitChar h10]
      omega
    · have hdiv : n / 10 < fuel := by omega
      rw [hstep, if_neg h10]
      unfold decVal
      rw [decValAux_append, show decValAux 0 (toDecAux fuel (n / 10)) = decVal (toDecAux fuel (n / 10)) from rfl,
        ih hdiv, digitVal_digitChar (Nat.mod_lt n (by norm_num))]
      omega

theorem decVal_toDec (n : Nat) : decVal (toDec n) = n :=
  decVal_toDecAux (Nat.lt_succ_self n)

theorem reprDec_injective : Function.Injective reprDec := by
  intro m n h
  have hdata : toDec m = toDec n := congrArg String.data h
  have := congrArg decVal hdata
  rwa [decVal_toDec, decVal_toDec] at this

/-! ## Python `str.strip()` (ASCII whitespace model) -/

def pyStripL (l : List Char) : List Char :=
  ((l.dropWhile Char.isWhitespace).reverse.dropWhile Char.isWhitespace).reverse

def pyStrip (s : String) : String := ⟨pyStripL s.data⟩

/-! ## Python `str.replace` (generator.py line 83 `rendered.replace(f"{...}", value)`)

`replaceScan p v fuel s` scans `s` left to right; at each position, if the
pattern `p` matches there, it emits `v` and skips `|p|` characters, otherwise
it emits the character and advances by one — exactly CPython's `str.replace`
for a nonempty pattern.  The fuel argument (instantiated with `|s|`, which is
enough because every step consumes at least one character of `s` when `p ≠ []`)
makes the recursion structural.  Python's behaviour on an *empty* pattern
(interleaving `v` everywhere) is not modelled: every pattern the source builds
is `"{{key}}"`, of length at least four; `pyReplace` returns `s` unchanged in
that unreachable case. -/

def replaceScan (p v : List Char) : Nat → List Char → List Char
  | 0, s => s
  | _ + 1, [] => []
  | fuel + 1, c :: rest =>
    if p.isPrefixOf (c :: rest) then v ++ replaceScan p v fuel ((c :: rest).drop p.length)
    else c :: replaceScan p v fuel rest

def pyReplace (s pat v : String) : String :=
  if pat.data = [] then s else ⟨replaceScan pat.data v.data s.data.length s.data⟩

/-- Python's `p in s` substring test (the scan's success predicate). -/
def containsSeq (p : List Char) : List Char → Bool
  | [] => p.isPrefixOf []
  | c :: rest => p.isPrefixOf (c :: rest) || containsSeq p rest

/-- No occurrence of `p` starts inside the prefix `a` of `a ++ s`. -/
def noOccStart (p : List Char) : List Char → List Char → Bool
  | [], _ => true
  | c :: a', s => (!p.isPrefixOf (c :: (a' ++ s))) && noOccStart p a' s

theorem replaceScan_of_not_contains {p : List Char} (v : List Char) {s : List Char}
    (h : containsSeq p s = false) : ∀ fuel, replaceScan p v fuel s = s := by
  induction s with
  | nil =>
    intro fuel
    cases fuel <;> rfl
  | cons c rest ih =>
    intro fuel
    simp only [containsSeq, Bool.or_eq_false_iff] at h
    cases fuel with
    | zero => rfl
    | succ fuel =>
      show (if p.isPrefixOf (c :: rest) then _ else _) = _
      rw [if_neg (by simp [h.1]), ih h.2]

theorem replaceScan_head {p : List Char} (hp : p ≠ []) (v b : List Char) (fuel : Nat) :
    replaceScan p v (fuel + 1) (p ++ b) = v ++ replaceScan p v fuel b := by
  match p, hp with
  | c :: p', _ =>
    show (if (c :: p').isPrefixOf (c :: (p' ++ b)) then _ else _) = _
    rw [if_pos (by rw [ List.isPrefixOf_iff_prefix]; exact List.prefix_append _ _)]
    congr 1
    show replaceScan (c :: p') v fuel ((p' ++ b).drop p'.length) = _
    rw [List.drop_left]

theorem replaceScan_pass {p : List Char} (v : List Char) {a s : List Char}
    (h : noOccStart p a s = true) (fuel : Nat) :
    replaceScan p v (a.length + fuel) (a ++ s) = a ++ replaceScan p v fuel s := by
  induction a with
  | nil => simp
  | cons c a' ih =>
    simp only [noOccStart, Bool.and_eq_true, Bool.not_eq_true'] at h
    rw [List.length_cons, Nat.succ_add]
    show (if p.isPrefixOf (c :: (a' ++ s)) then _ else _) = _
    rw [if_neg (by simp [h.1])]
    show c :: replaceScan p v (a'.length + fuel) (a' ++ s) = _
    rw [ih h.2]
    rfl

/-! ## generator.py — `PromptContext` and `render_instructions` -/

/-- `generator.py` lines 17–26.  The field `structureDesc` models the Python
field named `structure` (a Lean keyword).  `previousTitles` is the
`previous_titles` argument the orchestrator passes (orchestrator.py line 110);
it does not participate in the substitution map. -/
structure PromptContext where
  seed_content : String
  goal : String
  structureDesc : String
  kind_name : String
  document_number : Nat
  previousTitles : Option (List String) := none
  additional_context : Option (List (String × String)) := none

/-- The slice of `agentschema.core.PromptAgent` that `render_instructions`
reads: its `instructions` (optional, defaulted to `""` at line 66). -/
structure PromptAgent where
  instructions : Option String := none
  modelId : Option String := none

/-- Python `f"{{{{{key}}}}}"` = the literal placeholder `\x7b\x7bkey\x7d\x7d`. -/
def placeholder (key : String) : String := "\x7b\x7b" ++ key ++ "\x7d\x7d"

/-- Insertion-ordered dict update (`variables.update(...)` at line 78):
an existing key keeps its position and gets the new value, a new key is
appended at the end. -/
def updateVar (vars : List (String × String)) (k v : String) : List (String × String) :=
  if vars.any (fun p => p.1 = k) then vars.map (fun p => if p.1 = k then (k, v) else p)
  else vars ++ [(k, v)]

/-- The substitution map of `render_instructions`, lines 69–78, in Python
dict insertion order. -/
def buildVariables (ctx : PromptContext) : List (String × String) :=
  let base := [("seed_content", ctx.seed_content), ("goal", ctx.goal),
    ("structure", ctx.structureDesc), ("kind_name", ctx.kind_name),
    ("document_number", reprDec ctx.document_number)]
  match ctx.additional_context with
  | none => base
  | some ac => ac.foldl (fun vs kv => updateVar vs kv.1 kv.2) base

/-- `render_instructions` (generator.py lines 56–85): sequentially replaces
every occurrence of each `\x7b\x7bkey\x7d\x7d` by its value, key by key, in
the map's insertion order. -/
def renderInstructions (agent : PromptAgent) (ctx : PromptContext) : String :=
  (buildVariables ctx).foldl (fun r kv => pyReplace r (placeholder kv.1) kv.2)
    (agent.instructions.getD "")

def fixedKeys : List String :=
  ["seed_content", "goal", "structure", "kind_name", "document_number"]

theorem placeholder_data_ne_nil (k : String) : (placeholder k).data ≠ [] := by
  show ("\x7b\x7b" ++ k ++ "\x7d\x7d").data ≠ []
  rw [String.data_append, String.data_append,
    show ("\x7b\x7b" : String).data = ['\x7b', '\x7b'] from rfl]
  simp

theorem pyReplace_of_not_contains {s pat : String} (v : String)
    (h : containsSeq pat.data s.data = false) : pyReplace s pat v = s := by
  unfold pyReplace
  split
  · rfl
  · rw [replaceScan_of_not_contains _ h]

theorem replaceScan_single {p : List Char} (hp : p ≠ []) (v : List Char) {a b : List Char}
    (h2 : noOccStart p a (p ++ b) = true) (h3 : containsSeq p b = false) :
    replaceScan p v (a.length + (p.length + b.length)) (a ++ (p ++ b)) = a ++ (v ++ b) := by
  rw [replaceScan_pass v h2]
  congr 1
  match p, hp with
  | c :: p', _ =>
    rw [List.length_cons, Nat.succ_add, replaceScan_head (by simp) v b,
      replaceScan_of_not_contains _ h3]

/-- A single present key is substituted and the surroundings — any unknown
placeholders included — are kept verbatim. -/
theorem pyReplace_single {a b : String} (pat v : String)
    (hp : pat.data ≠ [])
    (h2 : noOccStart pat.data a.data (pat.data ++ b.data) = true)
    (h3 : containsSeq pat.data b.data = false) :
    pyReplace (a ++ pat ++ b) pat v = a ++ v ++ b := by
  unfold pyReplace
  rw [if_neg hp]
  have hd : (a ++ pat ++ b).data = a.data ++ (pat.data ++ b.data) := by
    rw [String.data_append, String.data_append, List.append_assoc]
  have hl : (a.data ++ (pat.data ++ b.data)).length
      = a.data.length + (pat.data.length + b.data.length) := by
    rw [List.length_append, List.length_append]
  rw [hd, hl, replaceScan_single hp v.data h2 h3,
    show a.data ++ (v.data ++ b.data) = (a ++ v ++ b).data from by
      rw [String.data_append, String.data_append, List.append_assoc]]

/-! ## Claims C1 and C7 about `render_instructions` -/

/-- Concrete run showing the template `"\x7b\x7bseed_content\x7d\x7d"` rendered with
`seed_content = "\x7b\x7bgoal\x7d\x7d"`, `goal = "X"`. -/
def c1Agent : PromptAgent := { instructions := some "\x7b\x7bseed_content\x7d\x7d" }

def c1Ctx : PromptContext :=
  { seed_content := "\x7b\x7bgoal\x7d\x7d", goal := "X", structureDesc := "",
    kind_name := "", document_number := 1 }

/-- Claim C1 (code bug): `render_instructions` DOES double-substitute.  The value
inserted for `seed_content` (namely `"\x7b\x7bgoal\x7d\x7d"`) is re-scanned by the
subsequent `goal` substitution, so rendering the template
`"\x7b\x7bseed_content\x7d\x7d"` with `seed_content = "\x7b\x7bgoal\x7d\x7d"`, `goal = "X"`
produces `"X"`, not the verbatim `"\x7b\x7bgoal\x7d\x7d"` the claim (and the spec's
"must not double-substitute" contract) requires.  Determinism (same inputs,
same output) does hold: `renderInstructions` is a pure function. -/
theorem render_rescans_later_key : renderInstructions c1Agent c1Ctx = "X" := by decide

/-- Claim C7: placeholders of keys absent from the mapping are left verbatim
and cause no error, while a present key's placeholder is replaced by its value.
For a template `a ++ "\x7b\x7bkey\x7d\x7d" ++ b` whose only present placeholder is
the one of `key` (hypotheses: no fixed key's placeholder occurs in the
template, no occurrence of `key`'s placeholder starts inside `a` or occurs in
`b`), the rendering is exactly `a ++ v ++ b`: the substitution happened and
everything else — unknown placeholders such as `\x7b\x7bunknown\x7d\x7d` inside `b`
included — is verbatim.  Rendering is a total function, so no input raises. -/
theorem render_unknown_placeholder_verbatim
    (a b v key vs vg vst vk : String) (n : Nat)
    (hk : key ∉ fixedKeys)
    (h1 : ∀ k0 ∈ fixedKeys,
      containsSeq (placeholder k0).data (a ++ placeholder key ++ b).data = false)
    (h2 : noOccStart (placeholder key).data a.data ((placeholder key).data ++ b.data) = true)
    (h3 : containsSeq (placeholder key).data b.data = false) :
    renderInstructions { instructions := some (a ++ placeholder key ++ b) }
      { seed_content := vs, goal := vg, structureDesc := vst, kind_name := vk,
        document_number := n, additional_context := some [(key, v)] } = a ++ v ++ b := by
  have hne : ∀ k0 ∈ fixedKeys, ¬(k0 = key) := fun k0 h0 he => hk (he ▸ h0)
  have e1 : ¬(("seed_content" : String) = key) := hne _ (by simp [fixedKeys])
  have e2 : ¬(("goal" : String) = key) := hne _ (by simp [fixedKeys])
  have e3 : ¬(("structure" : String) = key) := hne _ (by simp [fixedKeys])
  have e4 : ¬(("kind_name" : String) = key) := hne _ (by simp [fixedKeys])
  have e5 : ¬(("document_number" : String) = key) := hne _ (by simp [fixedKeys])
  unfold renderInstructions buildVariables
  simp only [List.foldl_cons, List.foldl_nil, updateVar, List.any_cons, List.any_nil,
    decide_eq_true_eq, e1, e2, e3, e4, e5, decide_False, Bool.or_self, Bool.or_false,
    if_false, Option.getD_some]
  rw [if_neg (by simp)]
  simp only [List.cons_append, List.nil_append, List.foldl_cons, List.foldl_nil]
  rw [pyReplace_of_not_contains _ (h1 "seed_content" (by simp [fixedKeys])),
    pyReplace_of_not_contains _ (h1 "goal" (by simp [fixedKeys])),
    pyReplace_of_not_contains _ (h1 "structure" (by simp [fixedKeys])),
    pyReplace_of_not_contains _ (h1 "kind_name" (by simp [fixedKeys])),
    pyReplace_of_not_contains _ (h1 "document_number" (by simp [fixedKeys])),
    pyReplace_single (placeholder key) v (placeholder_data_ne_nil key) h2 h3]

/-- Witness for C7 at the spec's own example: template
`"Hello \x7b\x7bname\x7d\x7d, \x7b\x7bunknown\x7d\x7d"` with the additional variable
`name = "World"` renders to `"Hello World, \x7b\x7bunknown\x7d\x7d"`. -/
theorem render_unknown_placeholder_verbatim_witness :
    renderInstructions { instructions := some ("Hello " ++ placeholder "name" ++ ", \x7b\x7bunknown\x7d\x7d") }
      { seed_content := "seeds", goal := "g", structureDesc := "s", kind_name := "k",
        document_number := 7, additional_context := some [("name", "World")] }
      = "Hello World, \x7b\x7bunknown\x7d\x7d" :=
  (render_unknown_placeholder_verbatim "Hello " ", \x7b\x7bunknown\x7d\x7d" "World" "name"
    "seeds" "g" "s" "k" 7 (by decide) (by decide) (by decide) (by decide)).trans (by decide)

/-! ## converter.py — mistune AST tokens

A mistune AST token is a dict with a `type` string and optional keys
`children`, `raw` and `attrs` (of which the emitter reads `level`, `ordered`
and `url`).  `ty` is the value of `token.get("type", "")`; `children = none`
models the `children` key being absent (the source distinguishes presence via
`"children" in token`); likewise `raw`.  The three attr fields model
`token.get("attrs", {}).get(...)`. -/

inductive Tok where
  | mk (ty : String) (children : Option (List Tok)) (raw : Option String)
      (level : Option Nat) (ordered : Option Bool) (url : Option String)

def Tok.ty : Tok → String | .mk t _ _ _ _ _ => t

def Tok.children? : Tok → Option (List Tok) | .mk _ c _ _ _ _ => c

/-- Python `token.get("children", [])`. -/
def Tok.childrenD : Tok → List Tok | .mk _ c _ _ _ _ => c.getD []

/-- Python `token.get("raw", "")`. -/
def Tok.rawD : Tok → String | .mk _ _ r _ _ _ => r.getD ""

/-- Python `token.get("attrs", {}).get("level", 1)`. -/
def Tok.levelD : Tok → Nat | .mk _ _ _ l _ _ => l.getD 1

/-- Python `token.get("attrs", {}).get("ordered", False)`. -/
def Tok.orderedD : Tok → Bool | .mk _ _ _ _ o _ => o.getD false

/-- Python `token.get("attrs", {}).get("url", "")`. -/
def Tok.urlD : Tok → String | .mk _ _ _ _ _ u => u.getD ""

/-! ## converter.py — the python-docx document model slice the emitter writes -/

/-- A text run: `paragraph.add_run(...)` plus the style flags the emitter
sets (`run.bold`, `run.italic`, `run.font.strike`, `run.font.name`,
`run.font.size = Pt(10)`). -/
structure Run where
  text : String
  bold : Bool := false
  italic : Bool := false
  strike : Bool := false
  fontName : Option String := none
  sizePt : Option Nat := none
deriving Repr, DecidableEq

/-- A paragraph: its runs, optional named style (`"No Spacing"`,
`"List Bullet"`, `"List Number"`), the 0.5-inch left indent used for block
quotes (recorded in half-inches) and center alignment for thematic breaks. -/
structure Para where
  runs : List Run := []
  style : Option String := none
  leftIndentHalfIn : Option Nat := none
  centered : Bool := false
deriving Repr, DecidableEq

/-- A table cell: the runs of its (single) paragraph — `cell.text = s`
installs one run with text `s` — and the `w:fill` shading color, if any. -/
structure TCell where
  runs : List Run := []
  shade : Option String := none
deriving Repr, DecidableEq

/-- A block-level element of the output document. -/
inductive Block where
  | para (p : Para)
  | heading (level : Nat) (text : String)
  | table (cells : List (List TCell)) (style : String)
deriving Repr, DecidableEq

/-- Emitter state (`DocxEmitter`): the blocks added to `self.doc` so far that
are already closed, and `self._current_paragraph`.  The open paragraph, when
present, is the last paragraph added to the document; `docOf` gives the
document view. -/
structure EState where
  blocks : List Block := []
  cur : Option Para := none
deriving Repr, DecidableEq

/-- `_finish_paragraph`: the current paragraph (already part of the document
in python-docx) stops receiving runs; in this representation it is flushed to
the end of the block list.  No handler adds blocks while a paragraph is open,
so the flush position equals the `add_paragraph` position. -/
def finishParagraph (st : EState) : EState :=
  match st.cur with
  | none => st
  | some p => { blocks := st.blocks ++ [.para p], cur := none }

/-- The document contents: all blocks, the still-open paragraph included. -/
def docOf (st : EState) : List Block := (finishParagraph st).blocks

def initState : EState := {}

/-! ## converter.py — `_extract_text` (lines 199–216) -/

mutual

def extractTok : Tok → String
  | .mk ty ch raw _ _ _ =>
    if ty = "text" then raw.getD ""
    else if ty = "codespan" then raw.getD ""
    else if ty = "softbreak" then " "
    else if ty = "linebreak" then "\n"
    else
      match ch with
      | some cs => extractList cs
      | none =>
        match raw with
        | some r => r
        | none => ""

def extractList : List Tok → String
  | [] => ""
  | t :: ts => extractTok t ++ extractList ts

end

/-! ## converter.py — `_emit_inline` (lines 165–197), as the run sequence it
appends to the open paragraph -/

mutual

def inlineTok : Tok → List Run
  | .mk ty ch raw _ _ url =>
    if ty = "text" then [{ text := raw.getD "" }]
    else if ty = "strong" then [{ text := extractList (ch.getD []), bold := true }]
    else if ty = "emphasis" then [{ text := extractList (ch.getD []), italic := true }]
    else if ty = "codespan" then
      [{ text := raw.getD "", fontName := some "Courier New", sizePt := some 10 }]
    else if ty = "link" then
      [{ text := extractList (ch.getD []) ++ " (" ++ url.getD "" ++ ")" }]
    else if ty = "strikethrough" then [{ text := extractList (ch.getD []), strike := true }]
    else if ty = "linebreak" then [{ text := "\n" }]
    else if ty = "softbreak" then [{ text := " " }]
    else
      match ch with
      | some cs => inlineList cs
      | none => []

def inlineList : List Tok → List Run
  | [] => []
  | t :: ts => inlineTok t ++ inlineList ts

end

/-! ## converter.py — table reconstruction (`_emit_table`, lines 100–163) -/

/-- Cell texts of a `table_head` or `table_row` node: extract the text of each
`table_cell` child, in order (lines 110–113 and 120–125). -/
def cellTexts (t : Tok) : List String :=
  t.childrenD.filterMap fun c =>
    if c.ty = "table_cell" then some (extractList c.childrenD) else none

/-- The reconstructed grid rows (lines 104–127): each `table_head` child
contributes its cell row when nonempty; each `table_body` child contributes
one row per `table_row` child whose cell row is nonempty. -/
def rowsOf (cs : List Tok) : List (List String) :=
  cs.flatMap fun c =>
    if c.ty = "table_head" then
      if cellTexts c = [] then [] else [cellTexts c]
    else if c.ty = "table_body" then
      c.childrenD.filterMap fun r =>
        if r.ty = "table_row" then
          if cellTexts r = [] then none else some (cellTexts r)
        else none
    else []

/-- `num_cols = max(len(row) for row in rows)` (line 133; `0` is never the
result on a nonempty `rows` because every reconstructed row is nonempty). -/
def maxCols (rows : List (List String)) : Nat :=
  rows.foldl (fun m r => max m r.length) 0

/-- The populated grid cell at `(i, j)` (lines 143–161): populated cells get
`cell.text = cell_text.strip()` as a single run, bold when in row 0; cells of
row 0 beyond the reconstructed row's width stay empty but are still shaded
(the shading loop runs over `table.rows[0].cells`, line 157). -/
def mkCell (rows : List (List String)) (i j : Nat) : TCell :=
  match rows[i]?.bind (fun r => r[j]?) with
  | some s => { runs := [{ text := pyStrip s, bold := i = 0 }],
                shade := if i = 0 then some "D9E2F3" else none }
  | none => { runs := [], shade := if i = 0 then some "D9E2F3" else none }

def tableGrid (rows : List (List String)) (cols : Nat) : List (List TCell) :=
  (List.range rows.length).map fun i => (List.range cols).map fun j => mkCell rows i j

/-- `_emit_table` (lines 100–163). -/
def emitTable (st : EState) (cs : List Tok) : EState :=
  let st1 := finishParagraph st
  let rows := rowsOf cs
  if rows = [] then st1
  else
    let cols := maxCols rows
    if cols = 0 then st1
    else finishParagraph
      { st1 with blocks := st1.blocks ++ [.table (tableGrid rows cols) "Table Grid"] }

/-- `_emit_list` (lines 89–98): one paragraph per direct `list_item` child,
its children flattened to plain text, styled by the list's `ordered` flag. -/
def listParas (ordered : Bool) (cs : List Tok) : List Block :=
  cs.filterMap fun c =>
    if c.ty = "list_item" then
      some (.para { runs := [{ text := extractList c.childrenD }],
                    style := some (if ordered then "List Number" else "List Bullet") })
    else none

/-- The 50-dash horizontal rule of `_emit_thematic_break` (line 85). -/
def ruleText : String := ⟨List.replicate 50 '─'⟩

/-! ## converter.py — dispatch (`_emit_token`, lines 35–43) and handlers.

Python looks the handler up as `getattr(self, f"_emit_{token_type}", None)`.
Besides the eight real handlers this lookup also hits `_emit_token` itself for
a token of type `"token"` (unbounded recursion) and `_emit_inline` for
`"inline"` (a `TypeError`): both would crash the Python process.  These two
pathological type strings are modelled as no-ops and excluded by hypothesis
from every theorem about the fallback. -/

mutual

def emitToken (st : EState) (t : Tok) : EState :=
  match t with
  | .mk ty ch raw lv od _ =>
    if ty = "blank_line" then st
    else if ty = "paragraph" then
      let st1 := finishParagraph st
      finishParagraph { st1 with cur := some { runs := inlineList (ch.getD []) } }
    else if ty = "heading" then
      let st1 := finishParagraph st
      finishParagraph { st1 with blocks := st1.blocks ++
        [.heading (lv.getD 1) (extractList (ch.getD []))] }
    else if ty = "block_code" then
      let st1 := finishParagraph st
      finishParagraph { st1 with blocks := st1.blocks ++
        [.para { runs := [{ text := raw.getD "", fontName := some "Courier New",
                            sizePt := some 10 }],
                 style := some "No Spacing" }] }
    else if ty = "block_quote" then
      let st1 := finishParagraph st
      finishParagraph { st1 with blocks := st1.blocks ++
        [.para { runs := [{ text := extractList (ch.getD []) }], leftIndentHalfIn := some 1 }] }
    else if ty = "thematic_break" then
      let st1 := finishParagraph st
      finishParagraph { st1 with blocks := st1.blocks ++
        [.para { runs := [{ text := ruleText }], centered := true }] }
    else if ty = "list" then
      let st1 := finishParagraph st
      finishParagraph { st1 with blocks := st1.blocks ++ listParas (od.getD false) (ch.getD []) }
    else if ty = "table" then emitTable st (ch.getD [])
    else if ty = "token" then st
    else if ty = "inline" then st
    else
      match ch with
      | some cs => emitList st cs
      | none => st

def emitList (st : EState) : List Tok → EState
  | [] => st
  | t :: ts => emitList (emitToken st t) ts

end

/-- The eight `type` strings with a real `_emit_*` handler. -/
def handledKinds : List String :=
  ["blank_line", "paragraph", "heading", "block_code", "block_quote",
   "thematic_break", "list", "table"]

/-- The seven block-opening handlers of claim C9 (all handlers except the
no-op `_emit_blank_line`). -/
def blockKinds : List String :=
  ["paragraph", "heading", "block_code", "block_quote", "thematic_break", "list", "table"]

theorem finish_idem (st : EState) : finishParagraph (finishParagraph st) = finishParagraph st := by
  obtain ⟨b, c⟩ := st
  cases c <;> rfl

theorem cur_finish (st : EState) : (finishParagraph st).cur = none := by
  obtain ⟨b, c⟩ := st
  cases c <;> rfl

theorem docOf_finish (st : EState) : docOf (finishParagraph st) = docOf st := by
  obtain ⟨b, c⟩ := st
  cases c <;> rfl

theorem docOf_addBlocks (st : EState) (bs : List Block) :
    docOf (finishParagraph
      { finishParagraph st with blocks := (finishParagraph st).blocks ++ bs })
      = docOf st ++ bs := by
  obtain ⟨b, c⟩ := st
  cases c <;> rfl

theorem docOf_openClose (st : EState) (p : Para) :
    docOf (finishParagraph { finishParagraph st with cur := some p })
      = docOf st ++ [.para p] := by
  obtain ⟨b, c⟩ := st
  cases c <;> rfl

/-! Handler-level unfolding equations for `emitToken` (each is definitional:
the dispatch conditions are literal string comparisons). -/

theorem emitToken_paragraph (st : EState) (ch : Option (List Tok)) (r : Option String)
    (l : Option Nat) (o : Option Bool) (u : Option String) :
    emitToken st (.mk "paragraph" ch r l o u)
      = finishParagraph { finishParagraph st with cur := some { runs := inlineList (ch.getD []) } } := rfl

theorem emitToken_heading (st : EState) (ch : Option (List Tok)) (r : Option String)
    (l : Option Nat) (o : Option Bool) (u : Option String) :
    emitToken st (.mk "heading" ch r l o u)
      = finishParagraph { finishParagraph st with blocks := (finishParagraph st).blocks ++
          [.heading (l.getD 1) (extractList (ch.getD []))] } := rfl

theorem emitToken_list (st : EState) (ch : Option (List Tok)) (r : Option String)
    (l : Option Nat) (o : Option Bool) (u : Option String) :
    emitToken st (.mk "list" ch r l o u)
      = finishParagraph { finishParagraph st with blocks := (finishParagraph st).blocks ++
          (listParas (o.getD false) (ch.getD [])) } := rfl

theorem emitToken_block_code (st : EState) (ch : Option (List Tok)) (r : Option String)
    (l : Option Nat) (o : Option Bool) (u : Option String) :
    emitToken st (.mk "block_code" ch r l o u)
      = finishParagraph { finishParagraph st with blocks := (finishParagraph st).blocks ++
          [.para { runs := [{ text := r.getD "", fontName := some "Courier New",
                              sizePt := some 10 }],
                   style := some "No Spacing" }] } := rfl

theorem emitToken_block_quote (st : EState) (ch : Option (List Tok)) (r : Option String)
    (l : Option Nat) (o : Option Bool) (u : Option String) :
    emitToken st (.mk "block_quote" ch r l o u)
      = finishParagraph { finishParagraph st with blocks := (finishParagraph st).blocks ++
          [.para { runs := [{ text := extractList (ch.getD []) }],
                   leftIndentHalfIn := some 1 }] } := rfl

theorem emitToken_thematic_break (st : EState) (ch : Option (List Tok)) (r : Option String)
    (l : Option Nat) (o : Option Bool) (u : Option String) :
    emitToken st (.mk "thematic_break" ch r l o u)
      = finishParagraph { finishParagraph st with blocks := (finishParagraph st).blocks ++
          [.para { runs := [{ text := ruleText }], centered := true }] } := rfl

theorem emitToken_table (st : EState) (ch : Option (List Tok)) (r : Option String)
    (l : Option Nat) (o : Option Bool) (u : Option String) :
    emitToken st (.mk "table" ch r l o u) = emitTable st (ch.getD []) := rfl

/-! ## Claim C2 — fallback recursion for unregistered kinds -/

/-- Concrete unknown-kind container whose only child is a bare `text` node. -/
def mysteryTok : Tok :=
  .mk "mystery" (some [.mk "text" none (some "hello") none none none]) none none none none

/-- Claim C2, counterexample: the children of `mysteryTok` carry the text
`"hello"` (as `_extract_text` shows), yet emitting it produces an empty
document — the bare `text` child has neither a handler (there is no
`_emit_text` method) nor children, so its content is silently dropped, not
"flattened into visible text" as the claim guarantees. -/
theorem fallback_drops_bare_text :
    extractList mysteryTok.childrenD = "hello"
      ∧ docOf (emitToken initState mysteryTok) = [] := by decide

/-- Claim C2, amended: for every node whose kind has no registered handler
(and is not one of the two accidental `getattr` hits `"token"`/`"inline"`,
which crash Python) but which has a children sequence, the emitter recurses
into those children, dispatching each as a top-level node.  Content reachable
through handled kinds is thereby emitted, but the recursion does not guarantee
that bare text-bearing leaves among the children appear in the output (see
`fallback_drops_bare_text`). -/
theorem fallback_recurses_into_children (st : EState) (t : Tok) (cs : List Tok)
    (hh : t.ty ∉ handledKinds) (ht : t.ty ≠ "token") (hi : t.ty ≠ "inline")
    (hc : t.children? = some cs) :
    emitToken st t = emitList st cs := by
  obtain ⟨ty, ch, r, l, o, u⟩ := t
  simp only [Tok.ty, handledKinds, List.mem_cons, List.not_mem_nil, not_or, or_false] at hh
  simp only [Tok.ty] at ht hi
  simp only [Tok.children?] at hc
  subst hc
  obtain ⟨h1, h2, h3, h4, h5, h6, h7, h8⟩ := hh
  simp only [emitToken, h1, h2, h3, h4, h5, h6, h7, h8, ht, hi, if_false, ite_false]

/-- Witness for the amended C2 at `mysteryTok` in the empty state. -/
theorem fallback_recurses_into_children_witness :
    emitToken initState mysteryTok = emitList initState mysteryTok.childrenD :=
  fallback_recurses_into_children initState mysteryTok _
    (by decide) (by decide) (by decide) rfl

/-! ## Claim C8 — `_extract_text` is style-blind -/

/-- Children of a heading containing Markdown `**bold** and *italic*`. -/
def c8Children : List Tok :=
  [.mk "strong" (some [.mk "text" none (some "bold") none none none]) none none none none,
   .mk "text" none (some " and ") none none none,
   .mk "emphasis" (some [.mk "text" none (some "italic") none none none]) none none none none]

/-- Claim C8: text flattening concatenates descendant raw text in order and is
style-blind — `strong`, `emphasis`, `strikethrough` and `link` wrappers
contribute exactly their children's flattened text (no formatting markers, no
URL), a soft break contributes a single space, a hard break a newline, a text
or code-span node its raw text; on the spec's example the heading children of
`**bold** and *italic*` flatten to exactly `"bold and italic"`. -/
theorem extract_text_style_blind :
    (∀ (cs : List Tok) r l o u, extractTok (.mk "strong" (some cs) r l o u) = extractList cs)
    ∧ (∀ (cs : List Tok) r l o u, extractTok (.mk "emphasis" (some cs) r l o u) = extractList cs)
    ∧ (∀ (cs : List Tok) r l o u, extractTok (.mk "strikethrough" (some cs) r l o u) = extractList cs)
    ∧ (∀ (cs : List Tok) r l o u, extractTok (.mk "link" (some cs) r l o u) = extractList cs)
    ∧ (∀ ch s l o u, extractTok (.mk "text" ch (some s) l o u) = s)
    ∧ (∀ ch s l o u, extractTok (.mk "codespan" ch (some s) l o u) = s)
    ∧ (∀ ch r l o u, extractTok (.mk "softbreak" ch r l o u) = " ")
    ∧ (∀ ch r l o u, extractTok (.mk "linebreak" ch r l o u) = "\n")
    ∧ (∀ t ts, extractList (t :: ts) = extractTok t ++ extractList ts)
    ∧ extractList c8Children = "bold and italic" :=
  ⟨fun _ _ _ _ _ => rfl, fun _ _ _ _ _ => rfl, fun _ _ _ _ _ => rfl, fun _ _ _ _ _ => rfl,
   fun _ _ _ _ _ => rfl, fun _ _ _ _ _ => rfl, fun _ _ _ _ _ => rfl, fun _ _ _ _ _ => rfl,
   fun _ _ => rfl, by decide⟩

/-! ## Claim C9 — the single-open-paragraph discipline

The cursor is an `Option Para` — at most one paragraph is ever open, by
construction of the state type. -/

/-- Claim C9: every block-opening handler (paragraph, heading, block code,
block quote, thematic break, list, table) first closes any open paragraph —
its result does not depend on whether one was open, i.e. it equals the run
from the already-closed state — and after it completes no paragraph is open. -/
theorem block_handlers_close_paragraph (st : EState) (t : Tok)
    (hb : t.ty ∈ blockKinds) :
    emitToken st t = emitToken (finishParagraph st) t
      ∧ (emitToken st t).cur = none := by
  obtain ⟨ty, ch, r, l, o, u⟩ := t
  simp only [Tok.ty, blockKinds, List.mem_cons, List.not_mem_nil, or_false] at hb
  rcases hb with rfl | rfl | rfl | rfl | rfl | rfl | rfl
  · exact ⟨by rw [emitToken_paragraph, emitToken_paragraph, finish_idem],
      by rw [emitToken_paragraph]; exact cur_finish _⟩
  · exact ⟨by rw [emitToken_heading, emitToken_heading, finish_idem],
      by rw [emitToken_heading]; exact cur_finish _⟩
  · exact ⟨by rw [emitToken_block_code, emitToken_block_code, finish_idem],
      by rw [emitToken_block_code]; exact cur_finish _⟩
  · exact ⟨by rw [emitToken_block_quote, emitToken_block_quote, finish_idem],
      by rw [emitToken_block_quote]; exact cur_finish _⟩
  · exact ⟨by rw [emitToken_thematic_break, emitToken_thematic_break, finish_idem],
      by rw [emitToken_thematic_break]; exact cur_finish _⟩
  · exact ⟨by rw [emitToken_list, emitToken_list, finish_idem],
      by rw [emitToken_list]; exact cur_finish _⟩
  · constructor
    · rw [emitToken_table, emitToken_table]
      simp only [emitTable, finish_idem]
    · rw [emitToken_table]
      simp only [emitTable]
      split
      · exact cur_finish _
      · split
        · exact cur_finish _
        · exact cur_finish _

/-- Witness for C9: the heading handler applied in a state with an open
paragraph; it closes the paragraph first and leaves none open. -/
theorem block_handlers_close_paragraph_witness :
    (emitToken { blocks := [], cur := some { runs := [{ text := "x" }] } }
        (.mk "heading" (some [.mk "text" none (some "T") none none none]) none (some 2) none none))
      = (emitToken (finishParagraph { blocks := [], cur := some { runs := [{ text := "x" }] } })
        (.mk "heading" (some [.mk "text" none (some "T") none none none]) none (some 2) none none))
      ∧ (emitToken { blocks := [], cur := some { runs := [{ text := "x" }] } }
        (.mk "heading" (some [.mk "text" none (some "T") none none none]) none (some 2) none none)).cur
        = none :=
  block_handlers_close_paragraph _ _ (by decide)

/-! ## Claim C5 — list emission -/

/-- A bulleted list whose single item carries text `"a"` and a nested ordered
sub-list with one item of text `"b"`. -/
def nestedListTok : Tok :=
  .mk "list" (some [.mk "list_item" (some
    [.mk "text" none (some "a") none none none,
     .mk "list" (some [.mk "list_item"
         (some [.mk "text" none (some "b") none none none]) none none none none])
       none none (some true) none])
    none none none none]) none none none none

/-- Claim C5, counterexample: the nested list item `"b"` is NOT emitted as its
own separate paragraph.  `_emit_list` flattens each direct item's children with
`_extract_text`, so the nested list's text is merged into the parent item's
single paragraph: emitting `nestedListTok` produces exactly one paragraph,
with text `"ab"`, where the claim requires a separate paragraph for the
nested item. -/
theorem nested_list_items_merged :
    docOf (emitToken initState nestedListTok)
      = [.para { runs := [{ text := "ab" }], style := some "List Bullet" }] := by decide

/-- Claim C5, amended: for every list node, each DIRECT `list_item` child is
emitted as its own paragraph containing all of its descendant text flattened
(nested lists are merged into their parent item's paragraph rather than
producing separate paragraphs), styled `"List Number"` or `"List Bullet"`
according to the list's `ordered` flag — the same style for every item. -/
theorem list_items_as_paragraphs (st : EState) (t : Tok) (ht : t.ty = "list") :
    docOf (emitToken st t) = docOf st ++
      t.childrenD.filterMap (fun c =>
        if c.ty = "list_item" then
          some (.para { runs := [{ text := extractList c.childrenD }],
                        style := some (if t.orderedD then "List Number" else "List Bullet") })
        else none) := by
  obtain ⟨ty, ch, r, l, o, u⟩ := t
  simp only [Tok.ty] at ht
  subst ht
  rw [emitToken_list, docOf_addBlocks]
  rfl

/-- Ordered list with two plain items, used by the C5 witness. -/
def c5ListTok : Tok :=
  .mk "list" (some
    [.mk "list_item" (some [.mk "text" none (some "one") none none none]) none none none none,
     .mk "list_item" (some [.mk "text" none (some "two") none none none]) none none none none])
    none none (some true) none

/-- Witness for the amended C5: an ordered list with two plain items yields
two `"List Number"` paragraphs, in order. -/
theorem list_items_as_paragraphs_witness :
    docOf (emitToken initState c5ListTok)
    = [.para { runs := [{ text := "one" }], style := some "List Number" },
       .para { runs := [{ text := "two" }], style := some "List Number" }] :=
  (list_items_as_paragraphs initState c5ListTok rfl).trans (by decide)

/-! ## Table lemmas shared by claims C3 and C10 -/

theorem filterMap_all_some {α β : Type} {f : α → Option β} {g : α → β} :
    ∀ {l : List α}, (∀ a ∈ l, f a = some (g a)) → l.filterMap f = l.map g
  | [], _ => rfl
  | a :: l, h => by
    rw [List.filterMap_cons, h a (List.mem_cons_self a l), List.map_cons,
      filterMap_all_some fun x hx => h x (List.mem_cons_of_mem a hx)]

theorem foldl_max_ge_acc (rows : List (List String)) (acc : Nat) :
    acc ≤ rows.foldl (fun m r => max m r.length) acc := by
  induction rows generalizing acc with
  | nil => exact Nat.le_refl _
  | cons r rows ih => exact Nat.le_trans (Nat.le_max_left _ _) (ih _)

theorem maxCols_ge {rows : List (List String)} {r : List String} (h : r ∈ rows) :
    r.length ≤ maxCols rows := by
  unfold maxCols
  generalize 0 = acc
  induction rows generalizing acc with
  | nil => cases h
  | cons r' rows ih =>
    rcases List.mem_cons.mp h with rfl | hmem
    · exact Nat.le_trans (Nat.le_max_right _ _) (foldl_max_ge_acc _ _)
    · exact ih hmem _

theorem rowsOf_mem_ne_nil {cs : List Tok} {r : List String} (h : r ∈ rowsOf cs) : r ≠ [] := by
  rw [rowsOf, List.mem_flatMap] at h
  obtain ⟨c, -, hr⟩ := h
  split at hr
  · split at hr
    · cases hr
    · rcases List.mem_singleton.mp hr with rfl
      assumption
  · split at hr
    · obtain ⟨a, -, ha⟩ := List.mem_filterMap.mp hr
      split at ha
      · split at ha
        · cases ha
        · cases ha
          assumption
      · cases ha
    · cases hr

theorem maxCols_pos {cs : List Tok} (h : rowsOf cs ≠ []) : maxCols (rowsOf cs) ≠ 0 := by
  obtain ⟨r, rest, hr⟩ := List.exists_cons_of_ne_nil h
  have hmem : r ∈ rowsOf cs := by rw [hr]; exact List.mem_cons_self r rest
  have h1 : r.length ≤ maxCols (rowsOf cs) := maxCols_ge hmem
  have h2 : r ≠ [] := rowsOf_mem_ne_nil hmem
  have : 0 < r.length := List.length_pos.mpr h2
  omega

theorem emitTable_pos {st : EState} {cs : List Tok} (h : rowsOf cs ≠ []) :
    emitTable st cs = finishParagraph { finishParagraph st with
      blocks := (finishParagraph st).blocks ++
        [.table (tableGrid (rowsOf cs) (maxCols (rowsOf cs))) "Table Grid"] } := by
  simp only [emitTable, h, maxCols_pos h, if_false, ite_false]

theorem emitTable_degenerate {st : EState} {cs : List Tok}
    (h : rowsOf cs = [] ∨ maxCols (rowsOf cs) = 0) :
    emitTable st cs = finishParagraph st := by
  rcases h with h | h
  · simp only [emitTable, h, if_true, ite_true]
  · simp only [emitTable, h, if_true, ite_true, ite_self]

theorem tableGrid_length (rows : List (List String)) (cols : Nat) :
    (tableGrid rows cols).length = rows.length := by
  simp [tableGrid]

theorem tableGrid_row_length {rows : List (List String)} {cols : Nat} {row : List TCell}
    (h : row ∈ tableGrid rows cols) : row.length = cols := by
  obtain ⟨i, -, rfl⟩ := List.mem_map.mp h
  simp

theorem tableGrid_head? {rows : List (List String)} (cols : Nat) (h : rows ≠ []) :
    (tableGrid rows cols).head? = some ((List.range cols).map (mkCell rows 0)) := by
  obtain ⟨r, rest, rfl⟩ := List.exists_cons_of_ne_nil h
  rw [tableGrid, List.length_cons, List.range_succ_eq_map, List.map_cons]
  rfl

theorem tableGrid_get? {rows : List (List String)} {cols i : Nat} (h : i < rows.length) :
    (tableGrid rows cols)[i]? = some ((List.range cols).map (mkCell rows i)) := by
  rw [tableGrid, List.getElem?_map, List.getElem?_range h, Option.map_some']

theorem mkCell_run_bold {rows : List (List String)} {i j : Nat} {rn : Run}
    (h : rn ∈ (mkCell rows i j).runs) : rn.bold = decide (i = 0) := by
  unfold mkCell at h
  split at h
  · rcases List.mem_singleton.mp h with rfl
    rfl
  · cases h

theorem mkCell_shade (rows : List (List String)) (i j : Nat) :
    (mkCell rows i j).shade = if i = 0 then some "D9E2F3" else none := by
  unfold mkCell
  split <;> rfl

theorem mkCell_of_lookup {rows : List (List String)} {i j : Nat} {s : String}
    (h : rows[i]?.bind (fun row => row[j]?) = some s) :
    mkCell rows i j = { runs := [{ text := pyStrip s, bold := i = 0 }],
                        shade := if i = 0 then some "D9E2F3" else none } := by
  unfold mkCell
  rw [h]

/-! ## Claim C10 — first reconstructed row gets header styling, cells stored
stripped -/

/-- Claim C10: for every table node whose reconstructed grid is nonempty
(whether or not any `table_head` grouping exists — absent one, the first body
row is row 0), exactly one table block is appended; every cell of the grid's
first row has only bold runs and the `D9E2F3` shading fill; and every
populated cell `(i, j)` stores the stripped cell text as its single run, bold
exactly on row 0. -/
theorem table_first_row_header_styling (st : EState) (t : Tok)
    (ht : t.ty = "table") (h : rowsOf t.childrenD ≠ []) :
    docOf (emitToken st t) = docOf st ++
      [.table (tableGrid (rowsOf t.childrenD) (maxCols (rowsOf t.childrenD))) "Table Grid"]
    ∧ (∀ cell ∈ ((tableGrid (rowsOf t.childrenD) (maxCols (rowsOf t.childrenD))).head?.getD []),
        (∀ rn ∈ cell.runs, rn.bold = true) ∧ cell.shade = some "D9E2F3")
    ∧ (∀ i j s, ((rowsOf t.childrenD)[i]?.bind (fun row => row[j]?)) = some s →
        j < maxCols (rowsOf t.childrenD) ∧
        ((tableGrid (rowsOf t.childrenD) (maxCols (rowsOf t.childrenD)))[i]?.bind
            (fun row => row[j]?))
          = some ({ runs := [{ text := pyStrip s, bold := i = 0 }],
                    shade := if i = 0 then some "D9E2F3" else none } : TCell)) := by
  obtain ⟨ty, ch, r, l, o, u⟩ := t
  simp only [Tok.ty] at ht
  subst ht
  simp only [Tok.childrenD] at h ⊢
  refine ⟨?_, ?_, ?_⟩
  · rw [emitToken_table, emitTable_pos h, docOf_addBlocks]
  · intro cell hcell
    rw [tableGrid_head? _ h, Option.getD_some] at hcell
    obtain ⟨j, -, rfl⟩ := List.mem_map.mp hcell
    refine ⟨fun rn hrn => ?_, ?_⟩
    · rw [mkCell_run_bold hrn]
      rfl
    · rw [mkCell_shade]
      rfl
  · intro i j s hs
    obtain ⟨row, hrow, hj⟩ := Option.bind_eq_some.mp hs
    obtain ⟨hi, -⟩ := List.getElem?_eq_some.mp hrow
    obtain ⟨hjlen, -⟩ := List.getElem?_eq_some.mp hj
    have hrowmem : row ∈ rowsOf (ch.getD []) := by
      obtain ⟨hlt, heq⟩ := List.getElem?_eq_some.mp hrow
      exact heq ▸ List.getElem_mem hlt
    have hjc : j < maxCols (rowsOf (ch.getD [])) := Nat.lt_of_lt_of_le hjlen (maxCols_ge hrowmem)
    refine ⟨hjc, ?_⟩
    rw [tableGrid_get? hi, Option.some_bind, List.getElem?_map, List.getElem?_range hjc,
      Option.map_some', mkCell_of_lookup hs]

/-- Witness for C10: a table with NO `table_head` grouping — a single body row
with cells `"  a  "` and `"b"`.  Its first body row becomes grid row 0, is
bold and shaded, and the cell text is stored stripped (`"a"`). -/
def c10Tok : Tok :=
  .mk "table" (some [.mk "table_body" (some
    [.mk "table_row" (some
      [.mk "table_cell" (some [.mk "text" none (some "  a  ") none none none]) none none none none,
       .mk "table_cell" (some [.mk "text" none (some "b") none none none]) none none none none])
      none none none none]) none none none none]) none none none none

theorem table_first_row_header_styling_witness :
    (docOf (emitToken initState c10Tok) = docOf initState ++
      [.table (tableGrid (rowsOf c10Tok.childrenD) (maxCols (rowsOf c10Tok.childrenD))) "Table Grid"]
    ∧ (∀ cell ∈ ((tableGrid (rowsOf c10Tok.childrenD) (maxCols (rowsOf c10Tok.childrenD))).head?.getD []),
        (∀ rn ∈ cell.runs, rn.bold = true) ∧ cell.shade = some "D9E2F3")
    ∧ (∀ i j s, ((rowsOf c10Tok.childrenD)[i]?.bind (fun row => row[j]?)) = some s →
        j < maxCols (rowsOf c10Tok.childrenD) ∧
        ((tableGrid (rowsOf c10Tok.childrenD) (maxCols (rowsOf c10Tok.childrenD)))[i]?.bind
            (fun row => row[j]?))
          = some ({ runs := [{ text := pyStrip s, bold := i = 0 }],
                    shade := if i = 0 then some "D9E2F3" else none } : TCell)))
    ∧ pyStrip "  a  " = "a" :=
  ⟨table_first_row_header_styling initState c10Tok rfl (by decide), by decide⟩

/-! ## Claim C3 — table row/column counts -/

/-- Table whose `table_head` grouping has zero cells (`N = 0`) and whose body
has `M = 1` row with one cell `"x"`. -/
def c3cxTok : Tok :=
  .mk "table" (some
    [.mk "table_head" (some []) none none none none,
     .mk "table_body" (some [.mk "table_row" (some
       [.mk "table_cell" (some [.mk "text" none (some "x") none none none]) none none none none])
       none none none none]) none none none none]) none none none none

/-- Claim C3, counterexample: with `N = 0` header cells and `M = 1` body rows
(each with at least one cell) the emitted table has exactly `M = 1` row, not
`M + 1 = 2`: an empty header row is discarded (line 114 `if header_row:`), so
the reconstructed grid is just the body rows. -/
theorem table_zero_header_cells_loses_row :
    (rowsOf c3cxTok.childrenD).length = 1
    ∧ docOf (emitToken initState c3cxTok)
        = [.table [[{ runs := [{ text := "x", bold := true }], shade := some "D9E2F3" }]]
            "Table Grid"] := by decide

/-- Claim C3, amended: for every table node with `N ≥ 1` header cells in its
head grouping and `M` body rows each containing at least one cell, the emitted
table has exactly `M + 1` rows, its column count is the maximum row length over
all reconstructed rows, every run of every cell of row 0 is bold, and a table
whose reconstructed grid has zero rows or zero columns adds no table block and
raises no error (the emitter is a total function). -/
theorem table_row_and_col_counts (st : EState) (hd bd : Tok)
    (hhd : hd.ty = "table_head") (hbd : bd.ty = "table_body")
    (hcells : ∀ c ∈ hd.childrenD, c.ty = "table_cell") (hN : hd.childrenD ≠ [])
    (hrows : ∀ rr ∈ bd.childrenD, rr.ty = "table_row" ∧ cellTexts rr ≠ []) :
    rowsOf [hd, bd] = cellTexts hd :: bd.childrenD.map cellTexts
    ∧ (cellTexts hd).length = hd.childrenD.length
    ∧ (rowsOf [hd, bd]).length = bd.childrenD.length + 1
    ∧ docOf (emitToken st (.mk "table" (some [hd, bd]) none none none none))
        = docOf st ++
          [.table (tableGrid (rowsOf [hd, bd]) (maxCols (rowsOf [hd, bd]))) "Table Grid"]
    ∧ (tableGrid (rowsOf [hd, bd]) (maxCols (rowsOf [hd, bd]))).length
        = bd.childrenD.length + 1
    ∧ (∀ row ∈ tableGrid (rowsOf [hd, bd]) (maxCols (rowsOf [hd, bd])),
        row.length = maxCols (rowsOf [hd, bd]))
    ∧ (∀ cell ∈ ((tableGrid (rowsOf [hd, bd]) (maxCols (rowsOf [hd, bd]))).head?.getD []),
        ∀ rn ∈ cell.runs, rn.bold = true)
    ∧ (∀ (st2 : EState) (t2 : Tok), t2.ty = "table" →
        rowsOf t2.childrenD = [] ∨ maxCols (rowsOf t2.childrenD) = 0 →
        emitToken st2 t2 = finishParagraph st2) := by
  have hhead : cellTexts hd = hd.childrenD.map (fun c => extractList c.childrenD) := by
    unfold cellTexts
    exact filterMap_all_some fun c hc => by rw [if_pos (hcells c hc)]
  have hheadne : cellTexts hd ≠ [] := by
    rw [hhead]
    simpa using hN
  have hbody : bd.childrenD.filterMap
      (fun rr => if rr.ty = "table_row" then
        (if cellTexts rr = [] then none else some (cellTexts rr)) else none)
      = bd.childrenD.map cellTexts :=
    filterMap_all_some fun rr hrr => by
      rw [if_pos (hrows rr hrr).1, if_neg (hrows rr hrr).2]
  have hrowsOf : rowsOf [hd, bd] = cellTexts hd :: bd.childrenD.map cellTexts := by
    unfold rowsOf
    rw [List.flatMap_cons, List.flatMap_cons, List.flatMap_nil,
      if_pos hhd, if_neg hheadne]
    rw [if_neg (by rw [hbd]; decide), if_pos hbd, hbody]
    simp
  have hne : rowsOf [hd, bd] ≠ [] := by
    rw [hrowsOf]
    exact List.cons_ne_nil _ _
  refine ⟨hrowsOf, ?_, ?_, ?_, ?_, ?_, ?_, ?_⟩
  · rw [hhead, List.length_map]
  · rw [hrowsOf]
    simp
  · rw [emitToken_table]
    show docOf (emitTable st [hd, bd]) = _
    rw [emitTable_pos hne, docOf_addBlocks]
  · rw [tableGrid_length, hrowsOf]
    simp
  · exact fun row hrow => tableGrid_row_length hrow
  · intro cell hcell
    rw [tableGrid_head? _ hne, Option.getD_some] at hcell
    obtain ⟨j, -, rfl⟩ := List.mem_map.mp hcell
    intro rn hrn
    rw [mkCell_run_bold hrn]
    rfl
  · intro st2 t2 ht2 hdeg
    obtain ⟨ty2, ch2, r2, l2, o2, u2⟩ := t2
    simp only [Tok.ty] at ht2
    subst ht2
    simp only [Tok.childrenD] at hdeg
    rw [emitToken_table, emitTable_degenerate hdeg]

/-- Head grouping used by the C3 witness: `N = 2` header cells `"A"`, `"B"`. -/
def c3cHd : Tok :=
  .mk "table_head" (some
    [.mk "table_cell" (some [.mk "text" none (some "A") none none none]) none none none none,
     .mk "table_cell" (some [.mk "text" none (some "B") none none none]) none none none none])
    none none none none

/-- Body grouping used by the C3 witness: `M = 2` rows (`["1","2"]` and the
ragged `["3"]`). -/
def c3cBd : Tok :=
  .mk "table_body" (some
    [.mk "table_row" (some
      [.mk "table_cell" (some [.mk "text" none (some "1") none none none]) none none none none,
       .mk "table_cell" (some [.mk "text" none (some "2") none none none]) none none none none])
      none none none none,
     .mk "table_row" (some
      [.mk "table_cell" (some [.mk "text" none (some "3") none none none]) none none none none])
      none none none none])
    none none none none

/-- Witness for the amended C3, instantiated with `c3Tok`'s head and body
(`N = 2`, `M = 2`, ragged second body row): 3 grid rows, 2 columns. -/
theorem table_row_and_col_counts_witness :
    (rowsOf [(c3cHd : Tok), c3cBd] = cellTexts c3cHd :: (Tok.childrenD c3cBd).map cellTexts
    ∧ (cellTexts c3cHd).length = (Tok.childrenD c3cHd).length
    ∧ (rowsOf [c3cHd, c3cBd]).length = (Tok.childrenD c3cBd).length + 1
    ∧ docOf (emitToken initState (.mk "table" (some [c3cHd, c3cBd]) none none none none))
        = docOf initState ++
          [.table (tableGrid (rowsOf [c3cHd, c3cBd]) (maxCols (rowsOf [c3cHd, c3cBd]))) "Table Grid"]
    ∧ (tableGrid (rowsOf [c3cHd, c3cBd]) (maxCols (rowsOf [c3cHd, c3cBd]))).length
        = (Tok.childrenD c3cBd).length + 1
    ∧ (∀ row ∈ tableGrid (rowsOf [c3cHd, c3cBd]) (maxCols (rowsOf [c3cHd, c3cBd])),
        row.length = maxCols (rowsOf [c3cHd, c3cBd]))
    ∧ (∀ cell ∈ ((tableGrid (rowsOf [c3cHd, c3cBd]) (maxCols (rowsOf [c3cHd, c3cBd]))).head?.getD []),
        ∀ rn ∈ cell.runs, rn.bold = true)
    ∧ (∀ (st2 : EState) (t2 : Tok), t2.ty = "table" →
        rowsOf t2.childrenD = [] ∨ maxCols (rowsOf t2.childrenD) = 0 →
        emitToken st2 t2 = finishParagraph st2))
    ∧ (rowsOf [c3cHd, c3cBd]).length = 3 ∧ maxCols (rowsOf [c3cHd, c3cBd]) = 2 :=
  ⟨table_row_and_col_counts initState c3cHd c3cBd rfl rfl (by decide)
    (List.cons_ne_nil _ _) (by decide),
   by decide, by decide⟩

/-! ## project.py — configuration records -/

/-- `project.py` lines 9–31. -/
structure StructureCfg where
  has_tables : Bool := false
  section_count : Nat := 1
  target_length : String := "medium"
deriving Repr, DecidableEq

/-- `Structure.to_prompt_context` (project.py lines 19–31). -/
def StructureCfg.toPromptContext (s : StructureCfg) : String :=
  "- Target length: " ++
    (if s.target_length = "short" then "approximately 200 words"
     else if s.target_length = "medium" then "approximately 500 words"
     else if s.target_length = "long" then "approximately 1000 words"
     else s.target_length) ++
  "\n- Number of sections: " ++ reprDec s.section_count ++
  "\n- Include tables: " ++ (if s.has_tables then "yes" else "no")

/-- `project.py` lines 34–47.  The field `structureCfg` models the Python
field named `structure` (a Lean keyword). -/
structure DocumentKind where
  name : String
  prompt : Option String := none
  structureCfg : StructureCfg := {}
  count : Nat := 1
deriving Repr, DecidableEq

/-- `project.py` lines 98–113 (the fields `generate_documents` reads). -/
structure ProjectConfig where
  name : String
  description : String := ""
  seed_data_dir : String
  output_dir : String := "output"
  goals : List String := []
  kinds : List DocumentKind := []
deriving Repr, DecidableEq

/-! ## orchestrator.py — title extraction and filename sanitization -/

/-- One line's worth of `re.search(r"^#\s+(.+)$", markdown, re.MULTILINE)`
followed by `.strip()` (orchestrator.py lines 27–31): a `#`, at least one
whitespace character, then at least one further character; the group is the
rest of the line after the whitespace run (when the rest is all whitespace,
the regex backtracks and `.strip()` yields `""`, which `pyStrip []` also
gives). -/
def matchHeadingLine (l : List Char) : Option String :=
  match l with
  | '#' :: c2 :: rest2 =>
    if c2.isWhitespace ∧ rest2 ≠ [] then
      some (pyStrip ⟨(c2 :: rest2).dropWhile Char.isWhitespace⟩)
    else none
  | _ => none

/-- `_extract_title` (orchestrator.py lines 18–31): first heading line wins. -/
def extractTitle (md : String) : Option String :=
  (md.splitOn "\n").findSome? fun line => matchHeadingLine line.data

/-- The characters removed by `re.sub(r'[<>:"/\\|?*]', "", title)`
(orchestrator.py line 44). -/
def unsafeChars : List Char := ['<', '>', ':', '"', '/', '\\', '|', '?', '*']

/-- Whether a character is collapsed by `re.sub(r"[\s_]+", "-", ...)`
(line 46; ASCII whitespace model). -/
def isWsU (c : Char) : Bool := c.isWhitespace || c = '_'

def isDash (c : Char) : Bool := c = '-'

/-- Replaces each maximal run of `p`-characters by a single `rep` — the
behaviour of `re.sub(r"[class]+", rep, s)`.  The flag records whether the scan
is inside a run. -/
def collapseRuns (p : Char → Bool) (rep : Char) : Bool → List Char → List Char
  | _, [] => []
  | inRun, c :: rest =>
    if p c then
      if inRun then collapseRuns p rep true rest
      else rep :: collapseRuns p rep true rest
    else c :: collapseRuns p rep false rest

/-- `filename.strip("-")` (line 49). -/
def stripDashes (l : List Char) : List Char :=
  ((l.dropWhile isDash).reverse.dropWhile isDash).reverse

/-- Lines 51–52: `if len(filename) > 100: filename = filename[:100].rsplit("-", 1)[0]`
— keep at most 100 characters, cutting back to the last dash when one exists
in the kept prefix. -/
def truncate100 (l : List Char) : List Char :=
  if l.length ≤ 100 then l
  else
    if (l.take 100).reverse.dropWhile (fun c => !(isDash c)) = [] then l.take 100
    else (((l.take 100).reverse.dropWhile (fun c => !(isDash c))).drop 1).reverse

/-- ASCII `str.lower()` on one character (line 53; the titles the source
builds are ASCII; Python's full Unicode case mapping is not modelled). -/
def asciiLower : Char → Char
  | 'A' => 'a' | 'B' => 'b' | 'C' => 'c' | 'D' => 'd' | 'E' => 'e' | 'F' => 'f'
  | 'G' => 'g' | 'H' => 'h' | 'I' => 'i' | 'J' => 'j' | 'K' => 'k' | 'L' => 'l'
  | 'M' => 'm' | 'N' => 'n' | 'O' => 'o' | 'P' => 'p' | 'Q' => 'q' | 'R' => 'r'
  | 'S' => 's' | 'T' => 't' | 'U' => 'u' | 'V' => 'v' | 'W' => 'w' | 'X' => 'x'
  | 'Y' => 'y' | 'Z' => 'z' | c => c

/-- `_sanitize_filename` (orchestrator.py lines 34–53). -/
def sanitizeFilename (title : String) : String :=
  let s1 := title.data.filter fun c => !(unsafeChars.contains c)
  let s2 := collapseRuns isWsU '-' false s1
  let s3 := collapseRuns isDash '-' false s2
  let s4 := stripDashes s3
  let s5 := truncate100 s4
  ⟨s5.map asciiLower⟩

/-! ## orchestrator.py — duplicate-avoidance naming (lines 139–147) -/

/-- The `counter`-th candidate file name: `f"{base_name}.docx"` first, then
`f"{base_name}-{counter}.docx"` for `counter = 2, 3, …`. -/
def candName (base : String) (k : Nat) : String :=
  if k = 1 then base ++ ".docx" else base ++ "-" ++ reprDec k ++ ".docx"

/-- The `while output_path.exists()` loop, fuel-structured; fuel
`|fs| + 1` always suffices (`findFree_fuel` below) because the candidate
names are pairwise distinct while `fs` is finite. -/
def findFreeAux (fs : List String) (base : String) : Nat → Nat → String
  | 0, k => candName base k
  | fuel + 1, k =>
    if candName base k ∈ fs then findFreeAux fs base fuel (k + 1) else candName base k

/-- The file name `generate_documents` actually saves to when `base_name` is
nonempty, given the set `fs` of existing names in the output directory. -/
def findFree (fs : List String) (base : String) : String :=
  findFreeAux fs base (fs.length + 1) 1

/-! ## Lemmas about the sanitization pipeline (claim C6) -/

def lowerLetters : List Char :=
  ['a', 'b', 'c', 'd', 'e', 'f', 'g', 'h', 'i', 'j', 'k', 'l', 'm',
   'n', 'o', 'p', 'q', 'r', 's', 't', 'u', 'v', 'w', 'x', 'y', 'z']

theorem asciiLower_cases (c : Char) : asciiLower c = c ∨ asciiLower c ∈ lowerLetters := by
  unfold asciiLower
  split
  all_goals first
    | (left; rfl)
    | (right; decide)

theorem asciiLower_fix_of_lower : ∀ d ∈ lowerLetters, asciiLower d = d := by decide

theorem asciiLower_idem (c : Char) : asciiLower (asciiLower c) = asciiLower c := by
  rcases asciiLower_cases c with h | h
  · rw [h, h]
  · exact asciiLower_fix_of_lower _ h

theorem asciiLower_eq_dash {c : Char} (h : asciiLower c = '-') : c = '-' := by
  rcases asciiLower_cases c with h' | h'
  · rw [← h', h]
  · rw [h] at h'
    exact absurd h' (by decide)

theorem collapseRuns_mem {p : Char → Bool} {rep : Char} :
    ∀ {b : Bool} {l : List Char} {c : Char},
      c ∈ collapseRuns p rep b l → c = rep ∨ (c ∈ l ∧ p c = false) := by
  intro b l
  induction l generalizing b with
  | nil => intro c h; cases h
  | cons x xs ih =>
    intro c h
    unfold collapseRuns at h
    by_cases hx : p x
    · rw [if_pos hx] at h
      cases b with
      | true =>
        rcases ih h with h' | ⟨hm, hp⟩
        · exact Or.inl h'
        · exact Or.inr ⟨List.mem_cons_of_mem x hm, hp⟩
      | false =>
        rcases List.mem_cons.mp h with rfl | h'
        · exact Or.inl rfl
        · rcases ih h' with h'' | ⟨hm, hp⟩
          · exact Or.inl h''
          · exact Or.inr ⟨List.mem_cons_of_mem x hm, hp⟩
    · rw [if_neg hx] at h
      rcases List.mem_cons.mp h with rfl | h'
      · exact Or.inr ⟨List.mem_cons_self c xs, Bool.not_eq_true _ ▸ eq_false_of_ne_true hx⟩
      · rcases ih h' with h'' | ⟨hm, hp⟩
        · exact Or.inl h''
        · exact Or.inr ⟨List.mem_cons_of_mem x hm, hp⟩

theorem collapseRuns_true_head {p : Char → Bool} {rep : Char} :
    ∀ {l : List Char} {c : Char}, (collapseRuns p rep true l).head? = some c → p c = false := by
  intro l
  induction l with
  | nil => intro c h; cases h
  | cons x xs ih =>
    intro c h
    unfold collapseRuns at h
    by_cases hx : p x
    · rw [if_pos hx] at h
      exact ih h
    · rw [if_neg hx] at h
      cases h
      exact eq_false_of_ne_true hx

theorem collapseRuns_dash_chain' :
    ∀ (l : List Char) (b : Bool),
      List.Chain' (fun a c => ¬(a = '-' ∧ c = '-')) (collapseRuns isDash '-' b l) := by
  intro l
  induction l with
  | nil => intro b; exact List.chain'_nil
  | cons x xs ih =>
    intro b
    unfold collapseRuns
    by_cases hx : isDash x
    · rw [if_pos hx]
      cases b with
      | true => exact ih true
      | false =>
        refine List.chain'_cons'.mpr ⟨fun y hy => ?_, ih true⟩
        have hf : isDash y = false := collapseRuns_true_head hy
        rintro ⟨-, hy'⟩
        rw [hy'] at hf
        cases hf
    · rw [if_neg hx]
      refine List.chain'_cons'.mpr ⟨fun y hy => ?_, ih false⟩
      rintro ⟨hx', -⟩
      rw [hx'] at hx
      exact hx (by decide)

theorem mem_of_head? {α : Type} {l : List α} {c : α} (h : l.head? = some c) : c ∈ l := by
  cases l with
  | nil => cases h
  | cons x r =>
    cases h
    exact List.mem_cons_self _ _

theorem mem_of_getLast? {α : Type} {l : List α} {c : α} (h : l.getLast? = some c) : c ∈ l := by
  rw [← List.head?_reverse] at h
  exact List.mem_reverse.mp (mem_of_head? h)

theorem head?_of_isPrefix {α : Type} {l t : List α} {c : α} (hp : l <+: t)
    (h : l.head? = some c) : t.head? = some c := by
  obtain ⟨u, rfl⟩ := hp
  cases l with
  | nil => cases h
  | cons x r => cases h; rfl

theorem getLast?_of_suffix {α : Type} {l t : List α} {c : α} (hs : l <:+ t)
    (h : l.getLast? = some c) : t.getLast? = some c := by
  obtain ⟨u, rfl⟩ := hs
  rw [List.getLast?_append, h]
  rfl

theorem head?_dropWhile_false {p : Char → Bool} :
    ∀ {l : List Char} {c : Char}, (l.dropWhile p).head? = some c → p c = false := by
  intro l
  induction l with
  | nil => intro c h; cases h
  | cons x xs ih =>
    intro c h
    rw [List.dropWhile_cons] at h
    by_cases hx : p x
    · rw [if_pos hx] at h
      exact ih h
    · rw [if_neg hx] at h
      cases h
      exact eq_false_of_ne_true hx

theorem suffix_reverse_isPrefix {l t : List Char} (h : l <:+ t.reverse) : l.reverse <+: t := by
  obtain ⟨u, hu⟩ := h
  exact ⟨u.reverse, by rw [← List.reverse_append, hu, List.reverse_reverse]⟩

/-- The no-double-dash relation. -/
def NoDbl (a b : Char) : Prop := ¬(a = '-' ∧ b = '-')

theorem noDbl_flip : flip NoDbl = NoDbl := by
  funext a b
  exact propext ⟨fun h => fun ⟨h1, h2⟩ => h ⟨h2, h1⟩, fun h => fun ⟨h1, h2⟩ => h ⟨h2, h1⟩⟩

theorem chain'_reverse_noDbl {l : List Char} (h : List.Chain' NoDbl l) :
    List.Chain' NoDbl l.reverse := by
  rw [List.chain'_reverse, noDbl_flip]
  exact h

theorem chain'_stripDashes {l : List Char} (h : List.Chain' NoDbl l) :
    List.Chain' NoDbl (stripDashes l) := by
  unfold stripDashes
  have h1 : List.Chain' NoDbl (l.dropWhile isDash) := h.suffix (List.dropWhile_suffix _)
  have h2 : List.Chain' NoDbl (l.dropWhile isDash).reverse := chain'_reverse_noDbl h1
  have h3 : List.Chain' NoDbl ((l.dropWhile isDash).reverse.dropWhile isDash) :=
    h2.suffix (List.dropWhile_suffix _)
  exact chain'_reverse_noDbl h3

theorem truncate100_isPrefix (l : List Char) : truncate100 l <+: l := by
  unfold truncate100
  split
  · exact List.prefix_refl l
  · split
    · exact List.take_prefix _ _
    · refine List.IsPrefix.trans ?_ ( List.take_prefix 100 l)
      refine suffix_reverse_isPrefix ?_
      exact (List.drop_suffix _ _).trans (List.dropWhile_suffix _)

theorem chain'_truncate100 {l : List Char} (h : List.Chain' NoDbl l) :
    List.Chain' NoDbl (truncate100 l) :=
  List.Chain'.prefix h (truncate100_isPrefix l)

theorem truncate100_length_le (l : List Char) : (truncate100 l).length ≤ 100 := by
  unfold truncate100
  split
  · assumption
  · split
    · rw [List.length_take]
      omega
    · have h1 : (((l.take 100).reverse.dropWhile fun c => !(isDash c)).drop 1).length
          ≤ (l.take 100).length := by
        calc (((l.take 100).reverse.dropWhile fun c => !(isDash c)).drop 1).length
            ≤ ((l.take 100).reverse.dropWhile fun c => !(isDash c)).length :=
              (List.drop_sublist _ _).length_le
          _ ≤ (l.take 100).reverse.length := (List.dropWhile_sublist _).length_le
          _ = (l.take 100).length := List.length_reverse _
      have h2 : (l.take 100).length ≤ 100 := by
        rw [List.length_take]
        omega
      rw [List.length_reverse]
      omega

theorem stripDashes_head {l : List Char} {c : Char} (h : (stripDashes l).head? = some c) :
    isDash c = false := by
  unfold stripDashes at h
  rw [List.head?_reverse] at h
  have h2 := getLast?_of_suffix (List.dropWhile_suffix isDash) h
  rw [List.getLast?_reverse] at h2
  exact head?_dropWhile_false h2

theorem stripDashes_getLast {l : List Char} {c : Char} (h : (stripDashes l).getLast? = some c) :
    isDash c = false := by
  unfold stripDashes at h
  rw [List.getLast?_reverse] at h
  exact head?_dropWhile_false h

theorem stripDashes_subset {l : List Char} {c : Char} (h : c ∈ stripDashes l) : c ∈ l := by
  unfold stripDashes at h
  rw [List.mem_reverse] at h
  have h2 := (List.dropWhile_sublist isDash).mem h
  rw [List.mem_reverse] at h2
  exact (List.dropWhile_sublist isDash).mem h2

theorem truncate100_getLast {l : List Char} {c : Char}
    (hch : List.Chain' NoDbl l) (hlast : ∀ d, l.getLast? = some d → isDash d = false)
    (h : (truncate100 l).getLast? = some c) : isDash c = false := by
  unfold truncate100 at h
  split at h
  · exact hlast c h
  · split at h
    · rename_i hnil
      have hall := List.dropWhile_eq_nil_iff.mp hnil
      have hc : c ∈ l.take 100 := mem_of_getLast? h
      have := hall c (List.mem_reverse.mpr hc)
      simpa using this
    · rename_i hlong hnil
      obtain ⟨d, w', hwcons⟩ :=
        List.exists_cons_of_ne_nil (ne_eq _ _ ▸ hnil)
      have hd : d = '-' := by
        have hpd : (fun c => !(isDash c)) d = false :=
          head?_dropWhile_false (by rw [hwcons]; rfl)
        simp only [Bool.not_eq_false'] at hpd
        exact of_decide_eq_true hpd
      have hdec : ((l.take 100).reverse.takeWhile fun c => !(isDash c)) ++
          ((l.take 100).reverse.dropWhile fun c => !(isDash c)) = (l.take 100).reverse :=
        List.takeWhile_append_dropWhile _ _
      have ht : l.take 100 = w'.reverse ++
          ('-' :: ((l.take 100).reverse.takeWhile fun c => !(isDash c)).reverse) := by
        conv_lhs => rw [← List.reverse_reverse (l.take 100), ← hdec]
        rw [hwcons, hd]
        rw [List.reverse_append, List.reverse_cons, List.append_assoc]
        rfl
      have hcht : List.Chain' NoDbl (l.take 100) := hch.take 100
      rw [ht] at hcht
      have hadj := (List.chain'_append.mp hcht).2.2
      rw [hwcons] at h
      have hnd : NoDbl c '-' := hadj c h '-' rfl
      have hne : ¬(c = '-') := fun hc => hnd ⟨hc, rfl⟩
      exact decide_eq_false hne

/-- Characters surviving to stage `s3` of the pipeline are either the inserted
dash or original characters that are neither unsafe nor whitespace nor
underscore. -/
theorem sanitize_stage3_mem {title : String} {c : Char}
    (h : c ∈ collapseRuns isDash '-' false
      (collapseRuns isWsU '-' false (title.data.filter fun c => !(unsafeChars.contains c)))) :
    c = '-' ∨ (c ∈ title.data ∧ c ∉ unsafeChars ∧ c.isWhitespace = false ∧ c ≠ '_') := by
  rcases collapseRuns_mem h with h1 | ⟨h2, -⟩
  · exact Or.inl h1
  · rcases collapseRuns_mem h2 with h3 | ⟨h4, hws⟩
    · exact Or.inl h3
    · refine Or.inr ⟨List.mem_of_mem_filter h4, ?_, ?_, ?_⟩
      · have hcont := List.of_mem_filter h4
        intro hm
        simp [hm] at hcont
      · unfold isWsU at hws
        rcases Bool.or_eq_false_iff.mp hws with ⟨hw, -⟩
        exact hw
      · unfold isWsU at hws
        rcases Bool.or_eq_false_iff.mp hws with ⟨-, hu⟩
        intro hc
        rw [hc] at hu
        simp at hu

theorem lower_letter_facts :
    ∀ d ∈ lowerLetters, d ∉ unsafeChars ∧ d.isWhitespace = false ∧ d ≠ '_' ∧ d ≠ '-' := by
  decide

theorem dash_facts : ('-' : Char) ∉ unsafeChars ∧ ('-' : Char).isWhitespace = false
    ∧ ('-' : Char) ≠ '_' ∧ asciiLower '-' = '-' := by decide

/-! ## Lemmas about the collision-avoidance loop (claim C6) -/

theorem reprDec_data (n : Nat) : (reprDec n).data = toDec n := rfl

theorem toDec_length_pos (n : Nat) : 0 < (toDec n).length := by
  unfold toDec
  rw [show toDecAux (n + 1) n = if n < 10 then [digitChar n]
      else toDecAux n (n / 10) ++ [digitChar (n % 10)] from rfl]
  split
  · simp
  · simp

theorem candName_inj {base : String} {j k : Nat}
    (h : candName base j = candName base k) : j = k := by
  unfold candName at h
  by_cases hj1 : j = 1 <;> by_cases hk1 : k = 1
  · rw [hj1, hk1]
  · rw [if_pos hj1, if_neg hk1] at h
    exfalso
    have hlen := congrArg String.length h
    rw [String.length_append, String.length_append, String.length_append,
      String.length_append] at hlen
    have hr : 0 < (reprDec k).length := toDec_length_pos k
    have h5 : (".docx" : String).length = 5 := rfl
    have h1 : ("-" : String).length = 1 := rfl
    omega
  · rw [if_neg hj1, if_pos hk1] at h
    exfalso
    have hlen := congrArg String.length h
    rw [String.length_append, String.length_append, String.length_append,
      String.length_append] at hlen
    have hr : 0 < (reprDec j).length := toDec_length_pos j
    have h5 : (".docx" : String).length = 5 := rfl
    have h1 : ("-" : String).length = 1 := rfl
    omega
  · rw [if_neg hj1, if_neg hk1] at h
    have hd := congrArg String.data h
    simp only [String.data_append, List.append_assoc] at hd
    have hd2 := List.append_cancel_left hd
    have hd3 := List.append_cancel_left hd2
    have hd4 := List.append_cancel_right hd3
    rw [reprDec_data, reprDec_data] at hd4
    have := congrArg decVal hd4
    rwa [decVal_toDec, decVal_toDec] at this

theorem findFreeAux_exhaust (fs : List String) (base : String) :
    ∀ {fuel k : Nat}, findFreeAux fs base fuel k ∈ fs →
      ∀ i ≤ fuel, candName base (k + i) ∈ fs := by
  intro fuel
  induction fuel with
  | zero =>
    intro k h i hi
    have hz : i = 0 := Nat.le_zero.mp hi
    subst hz
    simpa using h
  | succ fuel ih =>
    intro k h i hi
    unfold findFreeAux at h
    by_cases hk : candName base k ∈ fs
    · rw [if_pos hk] at h
      cases i with
      | zero => simpa using hk
      | succ i' =>
        have := ih h i' (by omega)
        simpa [show k + (i' + 1) = k + 1 + i' from by omega] using this
    · rw [if_neg hk] at h
      exact absurd h hk

theorem findFreeAux_first (fs : List String) (base : String) :
    ∀ (fuel k : Nat), ∃ j, k ≤ j ∧ findFreeAux fs base fuel k = candName base j
      ∧ ∀ m, k ≤ m → m < j → candName base m ∈ fs := by
  intro fuel
  induction fuel with
  | zero =>
    intro k
    exact ⟨k, Nat.le_refl k, rfl, fun m h1 h2 => absurd h2 (by omega)⟩
  | succ fuel ih =>
    intro k
    unfold findFreeAux
    by_cases hk : candName base k ∈ fs
    · rw [if_pos hk]
      obtain ⟨j, hj1, hj2, hj3⟩ := ih (k + 1)
      refine ⟨j, by omega, hj2, fun m hm1 hm2 => ?_⟩
      rcases Nat.eq_or_lt_of_le hm1 with rfl | hlt
      · exact hk
      · exact hj3 m hlt hm2
    · rw [if_neg hk]
      exact ⟨k, Nat.le_refl k, rfl, fun m h1 h2 => absurd h2 (by omega)⟩

theorem findFree_not_mem (fs : List String) (base : String) : findFree fs base ∉ fs := by
  intro hmem
  have hmem' : findFreeAux fs base (fs.length + 1) 1 ∈ fs := hmem
  have hall := findFreeAux_exhaust fs base hmem'
  have hinj : Function.Injective (fun i => candName base (1 + i)) := by
    intro a b hab
    have := candName_inj hab
    omega
  have hnodup : ((List.range (fs.length + 2)).map (fun i => candName base (1 + i))).Nodup :=
    List.Nodup.map hinj (List.nodup_range _)
  have hsub : ∀ x ∈ (List.range (fs.length + 2)).map (fun i => candName base (1 + i)),
      x ∈ fs := by
    intro x hx
    obtain ⟨i, hi, rfl⟩ := List.mem_map.mp hx
    have : i < fs.length + 2 := List.mem_range.mp hi
    exact hall i (by omega)
  have h1 : ((List.range (fs.length + 2)).map (fun i => candName base (1 + i))).toFinset.card
      = ((List.range (fs.length + 2)).map (fun i => candName base (1 + i))).length :=
    List.toFinset_card_of_nodup hnodup
  have h2 : ((List.range (fs.length + 2)).map (fun i => candName base (1 + i))).toFinset
      ⊆ fs.toFinset :=
    fun x hx => List.mem_toFinset.mpr (hsub x (List.mem_toFinset.mp hx))
  have h3 := Finset.card_le_card h2
  have h4 : fs.toFinset.card ≤ fs.length := List.toFinset_card_le fs
  have h5 : ((List.range (fs.length + 2)).map (fun i => candName base (1 + i))).length
      = fs.length + 2 := by
    rw [List.length_map, List.length_range]
  omega

/-- Claim C6: `_sanitize_filename` output contains no filesystem-unsafe
character, no whitespace, no underscore; it is fixed under ASCII
lower-casing; runs of dashes are collapsed (no two adjacent dashes remain);
it neither starts nor ends with a dash; and it has at most 100 characters
(the truncation cuts back to a dash boundary whenever the kept prefix
contains one).  On a collision, `generate_documents` tries `base.docx`,
`base-2.docx`, `base-3.docx`, … in order and saves to the first name not
already present — never overwriting an existing file. -/
theorem sanitize_and_collision_policy (title : String) (fs : List String) (base : String) :
    (sanitizeFilename title).data.length ≤ 100
    ∧ (∀ c ∈ (sanitizeFilename title).data,
        c ∉ unsafeChars ∧ c.isWhitespace = false ∧ c ≠ '_' ∧ asciiLower c = c)
    ∧ List.Chain' NoDbl (sanitizeFilename title).data
    ∧ (∀ c, (sanitizeFilename title).data.head? = some c → c ≠ '-')
    ∧ (∀ c, (sanitizeFilename title).data.getLast? = some c → c ≠ '-')
    ∧ findFree fs base ∉ fs
    ∧ (∃ k, 1 ≤ k ∧ findFree fs base = candName base k
        ∧ ∀ m, 1 ≤ m → m < k → candName base m ∈ fs) := by
  have hdata : (sanitizeFilename title).data =
      (truncate100 (stripDashes (collapseRuns isDash '-' false
        (collapseRuns isWsU '-' false
          (title.data.filter fun c => !(unsafeChars.contains c)))))).map asciiLower := rfl
  have hch3 : List.Chain' NoDbl (collapseRuns isDash '-' false
      (collapseRuns isWsU '-' false
        (title.data.filter fun c => !(unsafeChars.contains c)))) :=
    collapseRuns_dash_chain' _ false
  have hch4 := chain'_stripDashes hch3
  have hch5 := chain'_truncate100 hch4
  refine ⟨?_, ?_, ?_, ?_, ?_, findFree_not_mem fs base, ?_⟩
  · rw [hdata, List.length_map]
    exact truncate100_length_le _
  · intro c hc
    rw [hdata] at hc
    obtain ⟨c0, hc0, rfl⟩ := List.mem_map.mp hc
    have hmem4 := ((truncate100_isPrefix _).sublist).mem hc0
    have hmem3 := stripDashes_subset hmem4
    rcases sanitize_stage3_mem hmem3 with rfl | ⟨-, hu, hw, hus⟩
    · exact (by decide)
    · rcases asciiLower_cases c0 with heq | hlow
      · rw [heq]
        exact ⟨hu, hw, hus, heq⟩
      · have hfacts := lower_letter_facts _ hlow
        exact ⟨hfacts.1, hfacts.2.1, hfacts.2.2.1, asciiLower_idem c0⟩
  · rw [hdata, List.chain'_map]
    refine hch5.imp fun a b hab => ?_
    rintro ⟨ha, hb⟩
    exact hab ⟨asciiLower_eq_dash ha, asciiLower_eq_dash hb⟩
  · intro c hc
    rw [hdata, List.head?_map] at hc
    obtain ⟨c0, h5, rfl⟩ := Option.map_eq_some'.mp hc
    have h4 := head?_of_isPrefix (truncate100_isPrefix _) h5
    have hnd : c0 ≠ '-' := of_decide_eq_false (stripDashes_head h4)
    exact fun heq => hnd (asciiLower_eq_dash heq)
  · intro c hc
    rw [hdata, List.getLast?_map] at hc
    obtain ⟨c0, h5, rfl⟩ := Option.map_eq_some'.mp hc
    have h4 := truncate100_getLast hch4
      (fun d hd => stripDashes_getLast hd) h5
    have hnd : c0 ≠ '-' := of_decide_eq_false h4
    exact fun heq => hnd (asciiLower_eq_dash heq)
  · obtain ⟨j, hj1, hj2, hj3⟩ := findFreeAux_first fs base (fs.length + 1) 1
    exact ⟨j, hj1, hj2, hj3⟩

/-! ## orchestrator.py — `generate_documents` (lines 56–161)

The loop is modelled as a pure state-threading function.  External effects are
abstracted as parameters:

* `gen : PromptContext → String` stands for `await generate_content(prompt_path,
  context, client)` — the prompt file plus pluggable model backend (spec §4.2:
  the backend is mockable; the orchestrator treats it as a function from the
  rendering context to Markdown text);
* `stf : String → String` — Modelled from the spec: `generate_short_title`
  is imported by orchestrator.py line 13 but its definition is not among the
  sources under verification (the repository holds two evolving versions of
  `generator.py`).  Spec §6: "a model-produced short title"; §7: a raising
  short-title backend is recovered from by falling back to the extracted
  heading title, then to the numbered default name.  `stf md = ""` models
  both a falsy result and a raising backend — the source treats the two
  identically (`if short_title:` / `except`);
* `seed : String` stands for `config.load_seed_data()` (file I/O);
* `fs0 : List String` — the file names already present in the output
  directory (`output_path.exists()`); `doc.save` adds the chosen name.

The python-docx conversion (`convert_markdown_to_docx`, line 119) is the
emitter verified above and does not influence counting, ordering or naming. -/

/-- `f"{n:03d}"` — zero-padded to at least three digits. -/
def pad3 (n : Nat) : String := ⟨List.replicate (3 - (toDec n).length) '0' ++ toDec n⟩

/-- `goals_text` (orchestrator.py lines 80–84). -/
def goalsText (goals : List String) : String :=
  if goals = [] then "No specific goals defined."
  else String.intercalate "\n" (goals.map fun g => "- " ++ g)

/-- One yielded `(kind_name, output_path)` pair together with the rendering
context the document was generated from. -/
structure GenEntry where
  kindName : String
  ctx : PromptContext
  outName : String

/-- The orchestrator's cross-document state: the running 1-based document
counter, the accumulated titles, the output-directory contents, and the
yielded entries in order. -/
structure GenState where
  docNumber : Nat
  titles : List String
  fs : List String
  out : List GenEntry

/-- One iteration of the inner `for i in range(kind.count)` body
(orchestrator.py lines 100–157). -/
def genOne (gen : PromptContext → String) (stf : String → String)
    (seed goals : String) (k : DocumentKind) (s : GenState) : GenState :=
  let n := s.docNumber + 1
  let ctx : PromptContext :=
    { seed_content := seed, goal := goals,
      structureDesc := k.structureCfg.toPromptContext,
      kind_name := k.name, document_number := n,
      previousTitles := if s.titles.isEmpty then none else some s.titles }
  let md := gen ctx
  let title := (extractTitle md).getD ""
  let titles' := if title ≠ "" then s.titles ++ [title] else s.titles
  let base : String :=
    if stf md ≠ "" then sanitizeFilename (stf md)
    else if title ≠ "" then sanitizeFilename title else ""
  let name := if base ≠ "" then findFree s.fs base else k.name ++ "_" ++ pad3 n ++ ".docx"
  { docNumber := n, titles := titles', fs := s.fs ++ [name],
    out := s.out ++ [{ kindName := k.name, ctx := ctx, outName := name }] }

/-- The inner repetition loop for one kind. -/
def genKindLoop (gen : PromptContext → String) (stf : String → String)
    (seed goals : String) (k : DocumentKind) : Nat → GenState → GenState
  | 0, s => s
  | reps + 1, s => genKindLoop gen stf seed goals k reps (genOne gen stf seed goals k s)

/-- `generate_documents` (orchestrator.py lines 56–161): for each kind in
declared order, for each repetition, generate one document. -/
def generateDocuments (cfg : ProjectConfig) (gen : PromptContext → String)
    (stf : String → String) (seed : String) (fs0 : List String) : GenState :=
  cfg.kinds.foldl
    (fun s k => genKindLoop gen stf seed (goalsText cfg.goals) k k.count s)
    { docNumber := 0, titles := [], fs := fs0, out := [] }

/-- `get_total_document_count` (project.py lines 164–166). -/
def totalCount (ks : List DocumentKind) : Nat := (ks.map DocumentKind.count).sum

theorem genOne_docNumber (gen : PromptContext → String) (stf : String → String)
    (seed goals : String) (k : DocumentKind) (s : GenState) :
    (genOne gen stf seed goals k s).docNumber = s.docNumber + 1 := rfl

theorem genOne_out_kind (gen : PromptContext → String) (stf : String → String)
    (seed goals : String) (k : DocumentKind) (s : GenState) :
    (genOne gen stf seed goals k s).out.map GenEntry.kindName
      = s.out.map GenEntry.kindName ++ [k.name] := by
  simp [genOne]

theorem genOne_out_num (gen : PromptContext → String) (stf : String → String)
    (seed goals : String) (k : DocumentKind) (s : GenState) :
    (genOne gen stf seed goals k s).out.map (fun e => e.ctx.document_number)
      = s.out.map (fun e => e.ctx.document_number) ++ [s.docNumber + 1] := by
  simp [genOne]

theorem genKindLoop_spec (gen : PromptContext → String) (stf : String → String)
    (seed goals : String) (k : DocumentKind) :
    ∀ (reps : Nat) (s : GenState),
      (genKindLoop gen stf seed goals k reps s).docNumber = s.docNumber + reps
      ∧ (genKindLoop gen stf seed goals k reps s).out.map GenEntry.kindName
          = s.out.map GenEntry.kindName ++ List.replicate reps k.name
      ∧ (genKindLoop gen stf seed goals k reps s).out.map (fun e => e.ctx.document_number)
          = s.out.map (fun e => e.ctx.document_number)
            ++ List.range' (s.docNumber + 1) reps := by
  intro reps
  induction reps with
  | zero =>
    intro s
    exact ⟨rfl, by simp [genKindLoop], by simp [genKindLoop]⟩
  | succ reps ih =>
    intro s
    obtain ⟨h1, h2, h3⟩ := ih (genOne gen stf seed goals k s)
    refine ⟨?_, ?_, ?_⟩
    · show (genKindLoop gen stf seed goals k reps (genOne gen stf seed goals k s)).docNumber = _
      rw [h1, genOne_docNumber]
      omega
    · show (genKindLoop gen stf seed goals k reps (genOne gen stf seed goals k s)).out.map
        GenEntry.kindName = _
      rw [h2, genOne_out_kind, List.append_assoc]
      congr 1
    · show (genKindLoop gen stf seed goals k reps
        (genOne gen stf seed goals k s)).out.map (fun e => e.ctx.document_number) = _
      rw [h3, genOne_out_num, genOne_docNumber, List.append_assoc]
      congr 1

theorem genFold_spec (gen : PromptContext → String) (stf : String → String)
    (seed goals : String) :
    ∀ (ks : List DocumentKind) (s : GenState),
      (ks.foldl (fun s k => genKindLoop gen stf seed goals k k.count s) s).docNumber
          = s.docNumber + totalCount ks
      ∧ (ks.foldl (fun s k => genKindLoop gen stf seed goals k k.count s) s).out.map
            GenEntry.kindName
          = s.out.map GenEntry.kindName
            ++ ks.flatMap (fun k => List.replicate k.count k.name)
      ∧ (ks.foldl (fun s k => genKindLoop gen stf seed goals k k.count s) s).out.map
            (fun e => e.ctx.document_number)
          = s.out.map (fun e => e.ctx.document_number)
            ++ List.range' (s.docNumber + 1) (totalCount ks) := by
  intro ks
  induction ks with
  | nil =>
    intro s
    exact ⟨by simp [totalCount], by simp, by simp [totalCount]⟩
  | cons k ks ih =>
    intro s
    obtain ⟨g1, g2, g3⟩ := genKindLoop_spec gen stf seed goals k k.count s
    obtain ⟨h1, h2, h3⟩ := ih (genKindLoop gen stf seed goals k k.count s)
    have htot : totalCount (k :: ks) = k.count + totalCount ks := by
      simp [totalCount]
    refine ⟨?_, ?_, ?_⟩
    · rw [List.foldl_cons, h1, g1, htot]
      omega
    · rw [List.foldl_cons, h2, g2, List.append_assoc, List.flatMap_cons]
    · rw [List.foldl_cons, h3, g3, g1, List.append_assoc, htot]
      congr 1
      have := List.range'_append_1 (s.docNumber + 1) k.count (totalCount ks)
      rw [show s.docNumber + 1 + k.count = s.docNumber + k.count + 1 from by omega] at this
      rw [this]
      congr 1
      omega

/-- Claim C4: for every configuration, abstract generation backend, short-title
function, seed text and initial directory contents, the orchestrator generates
exactly `K = Σ count` documents; the yielded kind names are exactly the kinds
in declared order, each repeated its own count times, in repetition order; and
the document-index counter passed to the prompt-rendering context takes the
values `1, 2, …, K`, incremented exactly once per document across all kinds. -/
theorem orchestrator_order_and_numbering (cfg : ProjectConfig)
    (gen : PromptContext → String) (stf : String → String)
    (seed : String) (fs0 : List String) :
    (generateDocuments cfg gen stf seed fs0).out.length = totalCount cfg.kinds
    ∧ (generateDocuments cfg gen stf seed fs0).out.map GenEntry.kindName
        = cfg.kinds.flatMap (fun k => List.replicate k.count k.name)
    ∧ (generateDocuments cfg gen stf seed fs0).out.map (fun e => e.ctx.document_number)
        = List.range' 1 (totalCount cfg.kinds) := by
  obtain ⟨h1, h2, h3⟩ := genFold_spec gen stf seed (goalsText cfg.goals) cfg.kinds
    { docNumber := 0, titles := [], fs := fs0, out := [] }
  have h2' : (generateDocuments cfg gen stf seed fs0).out.map GenEntry.kindName
      = cfg.kinds.flatMap (fun k => List.replicate k.count k.name) := by
    simpa only [List.map_nil, List.nil_append] using h2
  have h3' : (generateDocuments cfg gen stf seed fs0).out.map (fun e => e.ctx.document_number)
      = List.range' 1 (totalCount cfg.kinds) := by
    simpa only [List.map_nil, List.nil_append] using h3
  refine ⟨?_, h2', h3'⟩
  have hlen := congrArg List.length h2'
  rw [List.length_map] at hlen
  rw [hlen]
  clear hlen h1 h2 h3 h2' h3'
  induction cfg.kinds with
  | nil => rfl
  | cons k ks ih =>
    rw [List.flatMap_cons, List.length_append, List.length_replicate, ih]
    simp [totalCount]

end Docxer
